import Mathlib

/-!
Verification of the SAP BTP questionnaire platform's recommendation engine:
the conditional-question visibility evaluator (`src/pages/Questionnaire.tsx`),
the weighted decision-matrix scorer (client side in `ThankYou.tsx`, server side
in `supabase/functions/process-submission/index.ts`), and the phase/sub-category
roadmap composer (client roadmap memo and `buildEmailHtml`).

Modelling conventions:
* JavaScript `Record<string, T>` objects keyed by use-case / sub-category ids
  (UUIDs and labels, never array-index-like keys) are modelled as association
  lists in insertion order, which is exactly `Object.entries` order for such
  keys.  `m[k] = (m[k] || 0) + w` becomes `bump`, `groups[k].push(uc)` becomes
  `bumpGroup`.
* `Array.prototype.sort` with a numeric descending comparator is stable
  (ES2019); it is modelled by the stable insertion sort `sortByDesc`.
* JS truthiness on the nullable string columns (`condition_question_id`,
  `condition_answer`, `engagement_category`, `sub_category`) treats both `null`
  and `""` as falsy; `jsFalsyStr` captures this.
* `Math.round(100 * s / m)` on the small non-negative integers produced by the
  scorer is modelled as exact rational rounding half-up:
  `(200 * s + m) / (2 * m)` in natural division.
* Display-only fields of a use case (rationale texts, use-case number, colors)
  play no role in any claim and are omitted from the `UseCase` record.
-/

namespace SapBtp

/-- A question row as loaded in `Questionnaire.tsx` (interface `Question`):
nullable columns become `Option`. -/
structure Question where
  id : String
  question_text : String
  question_type : String
  options : Option (List String)
  condition_question_id : Option String
  condition_answer : Option String
deriving DecidableEq, Repr

/-- A stored answer value: `string | string[]` in the source. -/
inductive AnswerValue where
  | scalar (s : String)
  | multi (vs : List String)
deriving DecidableEq, Repr

/-- One row of the `responses` table for a submission:
`(question_id, answer)`. -/
structure ResponseRow where
  question_id : String
  answer : AnswerValue
deriving DecidableEq, Repr

/-- One row of the `decision_matrix` table:
`(question_id, triggering_answer, use_case_id, weight)`. -/
structure DecisionRule where
  question_id : String
  triggering_answer : String
  use_case_id : String
  weight : Nat
deriving DecidableEq, Repr

/-- A use case (offering) restricted to the fields the roadmap composer
reads: id, grouping keys and the accumulated score. -/
structure UseCase where
  id : String
  sub_category : String
  engagement_category : Option String
  score : Nat
deriving DecidableEq, Repr

/-- JS truthiness test for a nullable string: `null` and `""` are falsy. -/
def jsFalsyStr : Option String → Bool
  | none => true
  | some s => s == ""

/-! ### Question Flow Evaluator (`Questionnaire.tsx`, `visibleQuestions`) -/

/-- The `answers` record: question id to stored value. -/
abbrev Answers := List (String × AnswerValue)

/-- `answers[qid]` (`undefined` becomes `none`). -/
def lookupAnswer (answers : Answers) (qid : String) : Option AnswerValue :=
  (answers.find? (fun e => e.1 == qid)).map (·.2)

/-- The filter body of `visibleQuestions` (Questionnaire.tsx lines 105-114):
`if (!q.condition_question_id || !q.condition_answer) return true;`
then look up the controlling answer; `undefined`/`null` hides the question;
an array answer must contain the required value, a scalar must equal it. -/
def isVisible (answers : Answers) (q : Question) : Bool :=
  if jsFalsyStr q.condition_question_id || jsFalsyStr q.condition_answer then
    true
  else
    match lookupAnswer answers (q.condition_question_id.getD "") with
    | none => false
    | some (.multi vs) => vs.contains (q.condition_answer.getD "")
    | some (.scalar s) => s == q.condition_answer.getD ""

/-- `flatQuestions.filter(...)`: the ordered visible-question sequence. -/
def visibleQuestions (flat : List Question) (answers : Answers) : List Question :=
  flat.filter (isVisible answers)

/-! ### Scoring Engine (`ThankYou.tsx` / `process-submission/index.ts`) -/

/-- The `useCaseScores` record in insertion (first-encounter) order. -/
abbrev ScoreMap := List (String × Nat)

/-- `useCaseScores[id] || 0`. -/
def lookupScore (m : ScoreMap) (id : String) : Nat :=
  match m.find? (fun e => e.1 == id) with
  | some e => e.2
  | none => 0

/-- `useCaseScores[id] = (useCaseScores[id] || 0) + w`: update in place if the
key is present, otherwise append a new entry (JS object insertion order). -/
def bump : ScoreMap → String → Nat → ScoreMap
  | [], id, w => [(id, w)]
  | (k, v) :: rest, id, w =>
    if k == id then (k, v + w) :: rest else (k, v) :: bump rest id w

/-- `const weight = match.weight || 1`: a zero (or missing) weight counts
as 1. -/
def ruleWeight (r : DecisionRule) : Nat :=
  if r.weight == 0 then 1 else r.weight

/-- The decision-matrix query
`.eq('question_id', qid).eq('triggering_answer', ans)`. -/
def matchesFor (rules : List DecisionRule) (qid ans : String) : List DecisionRule :=
  rules.filter (fun r => r.question_id == qid && r.triggering_answer == ans)

/-- `Array.isArray(answerValue) ? answerValue : [answerValue]`. -/
def answersToCheck : AnswerValue → List String
  | .multi vs => vs
  | .scalar s => [s]

/-- The body of the innermost loop: accumulate one matched rule's weight. -/
def applyMatch (m : ScoreMap) (r : DecisionRule) : ScoreMap :=
  bump m r.use_case_id (ruleWeight r)

/-- `for (const match of matches) ...`. -/
def applyMatches (m : ScoreMap) (ms : List DecisionRule) : ScoreMap :=
  ms.foldl applyMatch m

/-- Process one expanded answer value of one response. -/
def applyAnswer (rules : List DecisionRule) (qid : String) (m : ScoreMap)
    (ans : String) : ScoreMap :=
  applyMatches m (matchesFor rules qid ans)

/-- `for (const answer of answersToCheck) ...`. -/
def applyResponse (rules : List DecisionRule) (m : ScoreMap)
    (resp : ResponseRow) : ScoreMap :=
  (answersToCheck resp.answer).foldl (applyAnswer rules resp.question_id) m

/-- `for (const response of responses) ...`: the full accumulation loop
building `useCaseScores`. -/
def scoreResponses (rules : List DecisionRule) (rs : List ResponseRow) : ScoreMap :=
  rs.foldl (applyResponse rules) []

/-- Stable insertion step for a descending sort by a numeric key: the new
element goes in front of the first element whose key is not larger, so
earlier-encountered elements win ties. -/
def insertByDesc {α : Type} (key : α → Nat) (x : α) : List α → List α
  | [] => [x]
  | y :: ys => if key y ≤ key x then x :: y :: ys else y :: insertByDesc key x ys

/-- Stable descending sort by a numeric key: the unique output of the stable
ES2019 `Array.prototype.sort` under the comparator `(a, b) => key b - key a`. -/
def sortByDesc {α : Type} (key : α → Nat) : List α → List α
  | [] => []
  | x :: xs => insertByDesc key x (sortByDesc key xs)

/-- `Object.entries(useCaseScores).filter(([, s]) => s >= minScore)
.sort(([, a], [, b]) => b - a)`. -/
def sortedEntries (rules : List DecisionRule) (rs : List ResponseRow)
    (minScore : Nat) : ScoreMap :=
  sortByDesc (fun e => e.2)
    ((scoreResponses rules rs).filter (fun e => minScore ≤ e.2))

/-- `const MIN_SCORE = 3`. -/
def MIN_SCORE : Nat := 3

/-- The Scoring Engine's output: filtered by the default cutoff, sorted by
descending score. -/
def scoredOfferings (rules : List DecisionRule) (rs : List ResponseRow) : ScoreMap :=
  sortedEntries rules rs MIN_SCORE

/-! ### Relevance percentage -/

/-- `Math.round((score / denom) * 100)` on exact non-negative rationals:
round half up is `floor(100 * score / denom + 1 / 2)`. -/
def jsRoundPct (score denom : Nat) : Nat :=
  (200 * score + denom) / (2 * denom)

/-- `relevanceBadgeHtml`: `Math.round((score / Math.max(maxScore, 1)) * 100)`.
The client `RelevanceBadge` omits the clamp but always receives a denominator
that was already clamped to at least 1. -/
def relevancePct (score maxScore : Nat) : Nat :=
  jsRoundPct score (Nat.max maxScore 1)

/-- `Math.max(...scores, 1)`, and 1 for an empty result set, as computed in
both the `maxScore` memo of `ThankYou.tsx` and `buildEmailHtml`. -/
def maxScoreOf (scores : List Nat) : Nat :=
  if scores.isEmpty then 1 else scores.foldl Nat.max 1

/-! ### First-encounter order of the score map keys -/

/-- Record a key the first time it is seen. -/
def pushNew (ks : List String) (k : String) : List String :=
  if ks.contains k then ks else ks ++ [k]

/-- Keys contributed by one batch of matched rules, in encounter order. -/
def encMatches (ks : List String) (ms : List DecisionRule) : List String :=
  ms.foldl (fun ks r => pushNew ks r.use_case_id) ks

/-- Keys contributed by one expanded answer value. -/
def encAnswer (rules : List DecisionRule) (qid : String) (ks : List String)
    (ans : String) : List String :=
  encMatches ks (matchesFor rules qid ans)

/-- Keys contributed by one response row. -/
def encResponse (rules : List DecisionRule) (ks : List String)
    (resp : ResponseRow) : List String :=
  (answersToCheck resp.answer).foldl (encAnswer rules resp.question_id) ks

/-- The use-case ids in the order each was first encountered during the
accumulation loop. -/
def firstEncounteredIds (rules : List DecisionRule) (rs : List ResponseRow) :
    List String :=
  rs.foldl (encResponse rules) []

/-! ### Roadmap Composer -/

/-- A grouping record (`Record<string, UseCase[]>`) in insertion order. -/
abbrev Groups := List (String × List UseCase)

/-- `if (!groups[k]) groups[k] = []; groups[k].push(uc)`: append to the
existing group, else create a new group at the end. -/
def bumpGroup : Groups → String → UseCase → Groups
  | [], k, uc => [(k, [uc])]
  | (g, l) :: rest, k, uc =>
    if g == k then (g, l ++ [uc]) :: rest else (g, l) :: bumpGroup rest k uc

/-- `grouped[k]` (`undefined` becomes `none`). -/
def lookupGroup (g : Groups) (k : String) : Option (List UseCase) :=
  (g.find? (fun e => e.1 == k)).map (·.2)

/-- `grouped[k]` read with the JS `!phaseUCs` guard collapsed: missing key
gives the empty list. -/
def lookupGroupD (g : Groups) (k : String) : List UseCase :=
  (lookupGroup g k).getD []

/-- Build a grouping record keyed by `key`, in insertion order. -/
def groupByKey (key : UseCase → String) (ucs : List UseCase) : Groups :=
  ucs.foldl (fun g uc => bumpGroup g (key uc) uc) []

/-- `uc.sub_category || 'Other'` (`sub_category` is a non-null text column,
so only `""` is falsy here). -/
def subCatKey (uc : UseCase) : String :=
  if uc.sub_category == "" then "Other" else uc.sub_category

/-- `uc.engagement_category || "B"` in `buildEmailHtml`. -/
def emailPhaseKey (uc : UseCase) : String :=
  match uc.engagement_category with
  | none => "B"
  | some s => if s == "" then "B" else s

/-- The grouping by sub-category used inside a phase by both composers. -/
def groupBySubCat (ucs : List UseCase) : Groups :=
  groupByKey subCatKey ucs

/-- `Math.max(...group.map(u => u.score))` as used in the group comparator
(groups are never empty, so the `0` base is never the result). -/
def groupMax (l : List UseCase) : Nat :=
  (l.map (·.score)).foldl Nat.max 0

/-- `const phaseOrder = ["A", "B", "C"]` / the `phases` array keys. -/
def phaseKeys : List String := ["A", "B", "C"]

/-- The client roadmap memo of `ThankYou.tsx` (`part_002` lines 82-100):
for each phase key in order, take the use cases whose `engagement_category`
strictly equals the key (a `null` phase matches nothing), group them by
sub-category, sort the groups by their maximum score descending (stable),
and drop phases with no use cases. -/
def clientRoadmap (ucs : List UseCase) : List (String × Groups) :=
  ((phaseKeys.map
      (fun k => (k, ucs.filter (fun uc => uc.engagement_category == some k)))).filter
    (fun p => decide (0 < p.2.length))).map
    (fun p => (p.1, sortByDesc (fun g => groupMax g.2) (groupBySubCat p.2)))

/-- Phase bucketing in `buildEmailHtml` (index.ts lines 591-598):
`grouped[uc.engagement_category || "B"].push(uc)`. -/
def emailGroupByPhase (ucs : List UseCase) : Groups :=
  groupByKey emailPhaseKey ucs

/-- One iteration of the phase loop in `buildEmailHtml` (index.ts lines
600-604): `const phaseUCs = grouped[phaseKey];
if (!phaseUCs || phaseUCs.length === 0) continue;`.  A missing key
(`undefined`, here the `[]` default of `lookupGroupD`) and an empty list are
both skipped by that guard, so the two JS tests collapse into one
emptiness test. -/
def emailPhaseEntry (ucs : List UseCase) (k : String) :
    Option (String × List UseCase) :=
  if (lookupGroupD (emailGroupByPhase ucs) k).isEmpty then none
  else some (k, lookupGroupD (emailGroupByPhase ucs) k)

/-- Phase emission in `buildEmailHtml`: walk `phaseOrder` in the fixed order
A, B, C, skipping empty phases. -/
def emailRoadmap (ucs : List UseCase) : Groups :=
  phaseKeys.filterMap (emailPhaseEntry ucs)

/-- Sub-category grouping within a phase in `buildEmailHtml` (index.ts lines
607-613); the groups are later emitted in `Object.entries` insertion order,
with no explicit sort. -/
def emailSubGroups (phaseUCs : List UseCase) : Groups :=
  groupBySubCat phaseUCs

/-! ### Specification-side vocabulary and concrete scenario data -/

/-- "answers[controllerId] equals requiredValue (scalar) or contains it
(set answer)" — the spec's wording of a met visibility condition. -/
def valueMatches : AnswerValue → String → Bool
  | .scalar s, v => s == v
  | .multi vs, v => vs.contains v

/-- The weight one matched rule contributes to offering `id`. -/
def ruleContrib (r : DecisionRule) (id : String) : Nat :=
  if r.use_case_id == id then ruleWeight r else 0

/-- Total weight contributed to `id` by one expanded answer value. -/
def matchContrib (rules : List DecisionRule) (qid ans id : String) : Nat :=
  ((matchesFor rules qid ans).map (fun r => ruleContrib r id)).sum

/-- Total weight contributed to `id` by one response row. -/
def respContrib (rules : List DecisionRule) (resp : ResponseRow) (id : String) : Nat :=
  ((answersToCheck resp.answer).map
    (fun a => matchContrib rules resp.question_id a id)).sum

/-- Total weight contributed to `id` by a whole submission. -/
def totalContrib (rules : List DecisionRule) (rs : List ResponseRow) (id : String) : Nat :=
  (rs.map (fun resp => respContrib rules resp id)).sum

/-- The spec scenario's rule set
`{(Q1,"Yes",O1,5), (Q2,"X",O1,2), (Q2,"Y",O2,3)}`. -/
def c1Rules : List DecisionRule :=
  [⟨"Q1", "Yes", "O1", 5⟩, ⟨"Q2", "X", "O1", 2⟩, ⟨"Q2", "Y", "O2", 3⟩]

/-- The spec scenario's answers `{Q1:"Yes", Q2:["X","Y"]}`. -/
def c1Responses : List ResponseRow :=
  [⟨"Q1", .scalar "Yes"⟩, ⟨"Q2", .multi ["X", "Y"]⟩]

/-- The same answers recorded in the opposite order. -/
def c1ResponsesRev : List ResponseRow :=
  [⟨"Q2", .multi ["X", "Y"]⟩, ⟨"Q1", .scalar "Yes"⟩]

/-- The scenario's rules extended with a rule for O3 whose triggering
answer (Q1 = "No") no recorded answer supplies: O3 has rules but no
matching rule. -/
def c3Rules : List DecisionRule := c1Rules ++ [⟨"Q1", "No", "O3", 5⟩]

/-- The visibility scenario's Q1: YesNo, no condition. -/
def vq1 : Question := ⟨"Q1", "q1", "YesNo", none, none, none⟩

/-- The visibility scenario's Q2: MultipleChoice with options ["X","Y"],
conditioned on Q1 = "Yes". -/
def vq2 : Question :=
  ⟨"Q2", "q2", "MultipleChoice", some ["X", "Y"], some "Q1", some "Yes"⟩

/-- A question whose controlling-question id is set but whose required answer
value is the empty string. -/
def q10 : Question := ⟨"Q10", "q10", "YesNo", none, some "Q1", some ""⟩

/-- Roadmap scenario offering O3: phase A, subcat "Data", score 10. -/
def o3 : UseCase := ⟨"O3", "Data", some "A", 10⟩

/-- Roadmap scenario offering O4: phase A, subcat "Security", score 2. -/
def o4 : UseCase := ⟨"O4", "Security", some "A", 2⟩

/-- Roadmap scenario offering O5: phase A, subcat "Data", score 1. -/
def o5 : UseCase := ⟨"O5", "Data", some "A", 1⟩

/-- An offering whose phase tag is unset. -/
def ucUnset : UseCase := ⟨"U1", "S", none, 5⟩

/-! ### Lemmas about the stable descending sort -/

theorem mem_insertByDesc {α : Type} (key : α → Nat) (x y : α) (l : List α) :
    y ∈ insertByDesc key x l ↔ y = x ∨ y ∈ l := by
  induction l with
  | nil => simp [insertByDesc]
  | cons z zs ih =>
    by_cases h : key z ≤ key x
    · simp [insertByDesc, h, List.mem_cons]
    · simp [insertByDesc, h, List.mem_cons, ih]
      tauto

theorem mem_sortByDesc {α : Type} (key : α → Nat) (y : α) (l : List α) :
    y ∈ sortByDesc key l ↔ y ∈ l := by
  induction l with
  | nil => simp [sortByDesc]
  | cons z zs ih => simp [sortByDesc, mem_insertByDesc, ih, List.mem_cons]

theorem pairwise_insertByDesc {α : Type} (key : α → Nat) (x : α) (l : List α)
    (h : l.Pairwise (fun a b => key b ≤ key a)) :
    (insertByDesc key x l).Pairwise (fun a b => key b ≤ key a) := by
  induction l with
  | nil => simp [insertByDesc]
  | cons z zs ih =>
    rcases List.pairwise_cons.1 h with ⟨hz, hzs⟩
    by_cases hc : key z ≤ key x
    · rw [insertByDesc, if_pos hc]
      refine List.pairwise_cons.2 ⟨?_, h⟩
      intro b hb
      rcases List.mem_cons.1 hb with rfl | hb
      · exact hc
      · exact le_trans (hz b hb) hc
    · rw [insertByDesc, if_neg hc]
      refine List.pairwise_cons.2 ⟨?_, ih hzs⟩
      intro b hb
      rcases (mem_insertByDesc key x b zs).1 hb with rfl | hb
      · exact le_of_lt (lt_of_not_le hc)
      · exact hz b hb

theorem pairwise_sortByDesc {α : Type} (key : α → Nat) (l : List α) :
    (sortByDesc key l).Pairwise (fun a b => key b ≤ key a) := by
  induction l with
  | nil => simp [sortByDesc]
  | cons z zs ih => exact pairwise_insertByDesc key z _ ih

theorem filter_insertByDesc {α : Type} (key : α → Nat) (x : α) (l : List α)
    (s : Nat) :
    (insertByDesc key x l).filter (fun e => key e == s) =
      if key x == s then x :: l.filter (fun e => key e == s)
      else l.filter (fun e => key e == s) := by
  induction l with
  | nil =>
    by_cases hx : key x == s <;> simp [insertByDesc, List.filter, hx]
  | cons z zs ih =>
    by_cases hc : key z ≤ key x
    · rw [insertByDesc, if_pos hc]
      by_cases hx : key x == s <;> simp [List.filter_cons, hx]
    · rw [insertByDesc, if_neg hc]
      by_cases hx : key x == s
      · have hzx : key x < key z := lt_of_not_le hc
        have hxs : key x = s := by simpa using hx
        have hz : (key z == s) = false := by
          rw [beq_eq_false_iff_ne]
          intro hzs
          rw [hxs] at hzx
          omega
        simp [List.filter_cons, hz, ih, hx]
      · simp [List.filter_cons, ih, hx]

theorem filter_sortByDesc {α : Type} (key : α → Nat) (l : List α) (s : Nat) :
    (sortByDesc key l).filter (fun e => key e == s) =
      l.filter (fun e => key e == s) := by
  induction l with
  | nil => simp [sortByDesc]
  | cons z zs ih =>
    rw [sortByDesc, filter_insertByDesc]
    by_cases hz : key z == s <;> simp [List.filter_cons, hz, ih]

theorem insertByDesc_ne_nil {α : Type} (key : α → Nat) (x : α) (l : List α) :
    insertByDesc key x l ≠ [] := by
  cases l with
  | nil => simp [insertByDesc]
  | cons z zs =>
    rw [insertByDesc]
    by_cases hc : key z ≤ key x <;> simp [hc]

theorem sortByDesc_ne_nil {α : Type} (key : α → Nat) (l : List α)
    (h : l ≠ []) : sortByDesc key l ≠ [] := by
  cases l with
  | nil => exact absurd rfl h
  | cons z zs => exact insertByDesc_ne_nil key z _

/-! ### Lemmas about folded maxima -/

theorem le_foldl_max (l : List Nat) (a : Nat) : a ≤ l.foldl Nat.max a := by
  induction l generalizing a with
  | nil => simp
  | cons x xs ih => exact le_trans (Nat.le_max_left a x) (ih (Nat.max a x))

theorem mem_le_foldl_max (l : List Nat) (x : Nat) (h : x ∈ l) :
    ∀ a : Nat, x ≤ l.foldl Nat.max a := by
  induction l with
  | nil => simp at h
  | cons y ys ih =>
    intro a
    rcases List.mem_cons.1 h with rfl | h2
    · exact le_trans (Nat.le_max_right a x) (le_foldl_max ys (Nat.max a x))
    · exact ih h2 (Nat.max a y)

theorem foldl_max_le (l : List Nat) (M : Nat) (h : ∀ x ∈ l, x ≤ M) :
    ∀ a : Nat, a ≤ M → l.foldl Nat.max a ≤ M := by
  induction l with
  | nil => intro a ha; simpa using ha
  | cons x xs ih =>
    intro a ha
    rw [List.foldl_cons]
    exact ih (fun y hy => h y (List.mem_cons_of_mem x hy)) (Nat.max a x)
      (Nat.max_le.2 ⟨ha, h x (List.mem_cons_self x xs)⟩)

/-! ### The score map as a sum of matched weights -/

theorem lookupScore_bump (m : ScoreMap) (k : String) (w : Nat) (id : String) :
    lookupScore (bump m k w) id =
      lookupScore m id + (if k == id then w else 0) := by
  induction m with
  | nil =>
    by_cases h : (k == id) = true <;>
      simp [bump, lookupScore, List.find?_cons, h]
  | cons e rest ih =>
    obtain ⟨a, v⟩ := e
    by_cases hak : (a == k) = true
    · have ha : a = k := by simpa using hak
      subst ha
      by_cases hai : (a == id) = true
      · have ha2 : a = id := by simpa using hai
        subst ha2
        simp [bump, lookupScore, List.find?_cons]
      · simp [bump, lookupScore, List.find?_cons, hai]
    · have hne : a ≠ k := by simpa using hak
      by_cases hai : (a == id) = true
      · have ha2 : a = id := by simpa using hai
        subst ha2
        have hkid : (k == a) = false := by
          rw [beq_eq_false_iff_ne]
          exact fun hk => hne hk.symm
        simp [bump, lookupScore, List.find?_cons, hak, hai, hkid]
      · have hak2 : (a == k) = false := by simpa using hak
        have hai2 : (a == id) = false := by simpa using hai
        have hb : bump ((a, v) :: rest) k w = (a, v) :: bump rest k w := by
          simp [bump, hak2]
        have hL : lookupScore ((a, v) :: bump rest k w) id =
            lookupScore (bump rest k w) id := by
          simp [lookupScore, List.find?_cons, hai2]
        have hR : lookupScore ((a, v) :: rest) id = lookupScore rest id := by
          simp [lookupScore, List.find?_cons, hai2]
        rw [hb, hL, hR, ih]

theorem lookupScore_applyMatch (m : ScoreMap) (r : DecisionRule) (id : String) :
    lookupScore (applyMatch m r) id = lookupScore m id + ruleContrib r id := by
  rw [applyMatch, lookupScore_bump, ruleContrib]

theorem lookupScore_applyMatches (ms : List DecisionRule) (m : ScoreMap)
    (id : String) :
    lookupScore (applyMatches m ms) id =
      lookupScore m id + (ms.map (fun r => ruleContrib r id)).sum := by
  induction ms generalizing m with
  | nil => simp [applyMatches]
  | cons r ms ih =>
    have h1 : applyMatches m (r :: ms) = applyMatches (applyMatch m r) ms := rfl
    rw [h1, ih, lookupScore_applyMatch]
    simp
    omega

theorem lookupScore_foldl_applyAnswer (rules : List DecisionRule) (qid : String)
    (l : List String) (m : ScoreMap) (id : String) :
    lookupScore (l.foldl (applyAnswer rules qid) m) id =
      lookupScore m id + (l.map (fun a => matchContrib rules qid a id)).sum := by
  induction l generalizing m with
  | nil => simp
  | cons a l ih =>
    rw [List.foldl_cons, ih,
      show applyAnswer rules qid m a = applyMatches m (matchesFor rules qid a)
        from rfl,
      lookupScore_applyMatches]
    simp [matchContrib]
    omega

theorem lookupScore_applyResponse (rules : List DecisionRule) (m : ScoreMap)
    (resp : ResponseRow) (id : String) :
    lookupScore (applyResponse rules m resp) id =
      lookupScore m id + respContrib rules resp id := by
  rw [applyResponse, lookupScore_foldl_applyAnswer, respContrib]

theorem lookupScore_scoreResponses (rules : List DecisionRule)
    (rs : List ResponseRow) (id : String) :
    lookupScore (scoreResponses rules rs) id = totalContrib rules rs id := by
  suffices h : ∀ m : ScoreMap,
      lookupScore (rs.foldl (applyResponse rules) m) id =
        lookupScore m id + totalContrib rules rs id by
    simpa [scoreResponses, lookupScore] using h []
  induction rs with
  | nil => intro m; simp [totalContrib]
  | cons resp rs ih =>
    intro m
    rw [List.foldl_cons, ih, lookupScore_applyResponse]
    simp [totalContrib]
    omega

/-! ### Score-map keys in first-encounter order -/

theorem map_fst_bump (m : ScoreMap) (k : String) (w : Nat) :
    (bump m k w).map Prod.fst = pushNew (m.map Prod.fst) k := by
  induction m with
  | nil => simp [bump, pushNew]
  | cons e rest ih =>
    obtain ⟨a, v⟩ := e
    by_cases hak : (a == k) = true
    · have ha : a = k := by simpa using hak
      subst ha
      simp [bump, pushNew, List.contains_cons]
    · have hak2 : (a == k) = false := by simpa using hak
      have hka : (k == a) = false := by
        rw [beq_eq_false_iff_ne] at hak2 ⊢
        exact fun hk => hak2 hk.symm
      simp only [bump, hak2, Bool.false_eq_true, if_false, List.map_cons, ih,
        pushNew, List.contains_cons, hka, Bool.false_or]
      by_cases hc : (rest.map Prod.fst).contains k = true
      · rw [if_pos hc, if_pos hc]
      · rw [if_neg hc, if_neg hc, List.cons_append]

theorem map_fst_applyMatches (ms : List DecisionRule) (m : ScoreMap) :
    (applyMatches m ms).map Prod.fst = encMatches (m.map Prod.fst) ms := by
  induction ms generalizing m with
  | nil => rfl
  | cons r ms ih =>
    have h1 : applyMatches m (r :: ms) = applyMatches (applyMatch m r) ms := rfl
    have h2 : encMatches (m.map Prod.fst) (r :: ms) =
        encMatches (pushNew (m.map Prod.fst) r.use_case_id) ms := rfl
    rw [h1, h2, ih, applyMatch, map_fst_bump]

theorem map_fst_foldl_applyAnswer (rules : List DecisionRule) (qid : String)
    (l : List String) (m : ScoreMap) :
    (l.foldl (applyAnswer rules qid) m).map Prod.fst =
      l.foldl (encAnswer rules qid) (m.map Prod.fst) := by
  induction l generalizing m with
  | nil => rfl
  | cons a l ih =>
    rw [List.foldl_cons, List.foldl_cons, ih,
      show applyAnswer rules qid m a = applyMatches m (matchesFor rules qid a)
        from rfl,
      map_fst_applyMatches]
    rfl

theorem map_fst_scoreResponses (rules : List DecisionRule)
    (rs : List ResponseRow) :
    (scoreResponses rules rs).map Prod.fst = firstEncounteredIds rules rs := by
  suffices h : ∀ m : ScoreMap,
      (rs.foldl (applyResponse rules) m).map Prod.fst =
        rs.foldl (encResponse rules) (m.map Prod.fst) by
    simpa [scoreResponses, firstEncounteredIds] using h []
  induction rs with
  | nil => intro m; rfl
  | cons resp rs ih =>
    intro m
    rw [List.foldl_cons, List.foldl_cons, ih, applyResponse,
      map_fst_foldl_applyAnswer]
    rfl

theorem mem_pushNew (ks : List String) (k id : String) (h : id ∈ pushNew ks k) :
    id ∈ ks ∨ id = k := by
  by_cases hc : ks.contains k = true
  · left
    rw [pushNew, if_pos hc] at h
    exact h
  · rw [pushNew, if_neg hc] at h
    rcases List.mem_append.1 h with h | h
    · exact Or.inl h
    · right
      simpa using h

theorem mem_encMatches (ms : List DecisionRule) (ks : List String) (id : String)
    (h : id ∈ encMatches ks ms) : id ∈ ks ∨ ∃ r ∈ ms, r.use_case_id = id := by
  induction ms generalizing ks with
  | nil => exact Or.inl h
  | cons r ms ih =>
    have h1 : encMatches ks (r :: ms) =
        encMatches (pushNew ks r.use_case_id) ms := rfl
    rw [h1] at h
    rcases ih _ h with h2 | ⟨r2, hr2, hid⟩
    · rcases mem_pushNew _ _ _ h2 with h3 | h3
      · exact Or.inl h3
      · exact Or.inr ⟨r, List.mem_cons_self r ms, h3.symm⟩
    · exact Or.inr ⟨r2, List.mem_cons_of_mem r hr2, hid⟩

theorem mem_encAnswerFold (rules : List DecisionRule) (qid : String)
    (l : List String) (ks : List String) (id : String)
    (h : id ∈ l.foldl (encAnswer rules qid) ks) :
    id ∈ ks ∨ ∃ ans ∈ l, ∃ r ∈ matchesFor rules qid ans,
      r.use_case_id = id := by
  induction l generalizing ks with
  | nil => exact Or.inl h
  | cons a l ih =>
    rw [List.foldl_cons] at h
    rcases ih _ h with h2 | ⟨ans, hans, hrest⟩
    · rcases mem_encMatches _ _ _ h2 with h3 | ⟨r, hr, hid⟩
      · exact Or.inl h3
      · exact Or.inr ⟨a, List.mem_cons_self a l, r, hr, hid⟩
    · exact Or.inr ⟨ans, List.mem_cons_of_mem a hans, hrest⟩

/-- A use-case id enters the score map only through a decision rule that
actually fired against one of the recorded (question, value) pairs. -/
theorem mem_firstEncounteredIds (rules : List DecisionRule)
    (rs : List ResponseRow) (id : String)
    (h : id ∈ firstEncounteredIds rules rs) :
    ∃ resp ∈ rs, ∃ ans ∈ answersToCheck resp.answer,
      ∃ r ∈ matchesFor rules resp.question_id ans, r.use_case_id = id := by
  suffices hgen : ∀ ks, id ∈ rs.foldl (encResponse rules) ks →
      id ∈ ks ∨ ∃ resp ∈ rs, ∃ ans ∈ answersToCheck resp.answer,
        ∃ r ∈ matchesFor rules resp.question_id ans, r.use_case_id = id by
    rcases hgen [] h with h2 | h2
    · simp at h2
    · exact h2
  clear h
  induction rs with
  | nil => exact fun ks h2 => Or.inl h2
  | cons resp rs ih =>
    intro ks h2
    rw [List.foldl_cons] at h2
    rcases ih _ h2 with h3 | ⟨resp2, hresp2, hrest⟩
    · rcases mem_encAnswerFold rules resp.question_id _ _ _ h3 with
        h4 | ⟨ans, hans, hr⟩
      · exact Or.inl h4
      · exact Or.inr ⟨resp, List.mem_cons_self resp rs, ans, hans, hr⟩
    · exact Or.inr ⟨resp2, List.mem_cons_of_mem resp hresp2, hrest⟩

/-! ### Lemmas about grouping records -/

theorem map_fst_bumpGroup (g : Groups) (k : String) (uc : UseCase) :
    (bumpGroup g k uc).map Prod.fst = pushNew (g.map Prod.fst) k := by
  induction g with
  | nil => simp [bumpGroup, pushNew]
  | cons e rest ih =>
    obtain ⟨a, l⟩ := e
    by_cases hak : (a == k) = true
    · have ha : a = k := by simpa using hak
      subst ha
      simp [bumpGroup, pushNew, List.contains_cons]
    · have hak2 : (a == k) = false := by simpa using hak
      have hka : (k == a) = false := by
        rw [beq_eq_false_iff_ne] at hak2 ⊢
        exact fun hk => hak2 hk.symm
      simp only [bumpGroup, hak2, Bool.false_eq_true, if_false, List.map_cons,
        ih, pushNew, List.contains_cons, hka, Bool.false_or]
      by_cases hc : (rest.map Prod.fst).contains k = true
      · rw [if_pos hc, if_pos hc]
      · rw [if_neg hc, if_neg hc, List.cons_append]

theorem lookupGroupD_bumpGroup (g : Groups) (k k2 : String) (uc : UseCase) :
    lookupGroupD (bumpGroup g k uc) k2 =
      lookupGroupD g k2 ++ (if k == k2 then [uc] else []) := by
  induction g with
  | nil =>
    by_cases h : (k == k2) = true <;>
      simp [bumpGroup, lookupGroupD, lookupGroup, List.find?_cons, h]
  | cons e rest ih =>
    obtain ⟨a, l⟩ := e
    by_cases hak : (a == k) = true
    · have ha : a = k := by simpa using hak
      subst ha
      by_cases hai : (a == k2) = true
      · have ha2 : a = k2 := by simpa using hai
        subst ha2
        simp [bumpGroup, lookupGroupD, lookupGroup, List.find?_cons]
      · simp [bumpGroup, lookupGroupD, lookupGroup, List.find?_cons, hai]
    · have hak2 : (a == k) = false := by simpa using hak
      by_cases hai : (a == k2) = true
      · have ha2 : a = k2 := by simpa using hai
        subst ha2
        have hkid : (k == a) = false := by
          rw [beq_eq_false_iff_ne] at hak2 ⊢
          exact fun hk => hak2 hk.symm
        simp [bumpGroup, hak2, lookupGroupD, lookupGroup, List.find?_cons,
          hkid]
      · have hai2 : (a == k2) = false := by simpa using hai
        have hb : bumpGroup ((a, l) :: rest) k uc =
            (a, l) :: bumpGroup rest k uc := by
          simp [bumpGroup, hak2]
        have hL : lookupGroupD ((a, l) :: bumpGroup rest k uc) k2 =
            lookupGroupD (bumpGroup rest k uc) k2 := by
          simp [lookupGroupD, lookupGroup, List.find?_cons, hai2]
        have hR : lookupGroupD ((a, l) :: rest) k2 = lookupGroupD rest k2 := by
          simp [lookupGroupD, lookupGroup, List.find?_cons, hai2]
        rw [hb, hL, hR, ih]

theorem lookupGroupD_groupByKey (key : UseCase → String) (ucs : List UseCase)
    (k : String) :
    lookupGroupD (groupByKey key ucs) k =
      ucs.filter (fun uc => key uc == k) := by
  suffices h : ∀ g : Groups,
      lookupGroupD (ucs.foldl (fun g uc => bumpGroup g (key uc) uc) g) k =
        lookupGroupD g k ++ ucs.filter (fun uc => key uc == k) by
    simpa [groupByKey, lookupGroupD, lookupGroup] using h []
  induction ucs with
  | nil => intro g; simp
  | cons uc rest ih =>
    intro g
    rw [List.foldl_cons, ih, lookupGroupD_bumpGroup]
    by_cases h : (key uc == k) = true <;>
      simp [List.filter_cons, h, List.append_assoc]

theorem nodup_pushNew (ks : List String) (k : String) (h : ks.Nodup) :
    (pushNew ks k).Nodup := by
  by_cases hc : ks.contains k = true
  · rw [pushNew, if_pos hc]
    exact h
  · rw [pushNew, if_neg hc]
    have hk : k ∉ ks := by
      intro hm
      exact hc (by simpa [List.contains] using List.elem_iff.2 hm)
    exact ((List.perm_append_singleton k ks).nodup_iff).2
      (List.nodup_cons.2 ⟨hk, h⟩)

theorem nodup_keys_groupByKey (key : UseCase → String) (ucs : List UseCase) :
    ((groupByKey key ucs).map Prod.fst).Nodup := by
  suffices h : ∀ g : Groups, (g.map Prod.fst).Nodup →
      ((ucs.foldl (fun g uc => bumpGroup g (key uc) uc) g).map Prod.fst).Nodup by
    exact h [] (by simp)
  induction ucs with
  | nil => exact fun g hg => hg
  | cons uc rest ih =>
    intro g hg
    rw [List.foldl_cons]
    refine ih _ ?_
    rw [map_fst_bumpGroup]
    exact nodup_pushNew _ _ hg

theorem lookupGroup_of_mem (g : Groups) (k : String) (l : List UseCase)
    (hnd : (g.map Prod.fst).Nodup) (h : (k, l) ∈ g) :
    lookupGroup g k = some l := by
  induction g with
  | nil => simp at h
  | cons e rest ih =>
    rcases List.mem_cons.1 h with heq | hmem
    · subst heq
      simp [lookupGroup, List.find?_cons]
    · have hk : k ∈ rest.map Prod.fst := List.mem_map.2 ⟨(k, l), hmem, rfl⟩
      rw [List.map_cons, List.nodup_cons] at hnd
      have he1 : (e.1 == k) = false := by
        rw [beq_eq_false_iff_ne]
        intro he
        exact hnd.1 (he.symm ▸ hk)
      have hstep : lookupGroup (e :: rest) k = lookupGroup rest k := by
        simp [lookupGroup, List.find?_cons, he1]
      rw [hstep]
      exact ih hnd.2 hmem

theorem entry_groupByKey (key : UseCase → String) (ucs : List UseCase)
    (k : String) (l : List UseCase) (h : (k, l) ∈ groupByKey key ucs) :
    l = ucs.filter (fun uc => key uc == k) := by
  have h1 := lookupGroup_of_mem _ k l (nodup_keys_groupByKey key ucs) h
  have h2 := lookupGroupD_groupByKey key ucs k
  rw [lookupGroupD, h1] at h2
  simpa using h2

/-! ### Group maxima -/

theorem groupMax_append_singleton (l : List UseCase) (uc : UseCase) :
    groupMax (l ++ [uc]) = Nat.max (groupMax l) uc.score := by
  simp [groupMax, List.map_append, List.foldl_append]

theorem groupMax_singleton (uc : UseCase) : groupMax [uc] = uc.score := by
  simp [groupMax]

theorem bumpGroup_gmax_le (g : Groups) (k : String) (uc : UseCase) (M : Nat)
    (hg : ∀ e ∈ g, groupMax e.2 ≤ M) (huc : uc.score ≤ M) :
    ∀ e ∈ bumpGroup g k uc, groupMax e.2 ≤ M := by
  induction g with
  | nil =>
    intro e he
    simp [bumpGroup] at he
    subst he
    simpa [groupMax_singleton] using huc
  | cons e0 rest ih =>
    obtain ⟨a, l⟩ := e0
    intro e he
    by_cases hak : (a == k) = true
    · simp only [bumpGroup, if_pos hak] at he
      rcases List.mem_cons.1 he with rfl | hmem
      · rw [groupMax_append_singleton]
        exact Nat.max_le.2 ⟨hg (a, l) (List.mem_cons_self _ _), huc⟩
      · exact hg _ (List.mem_cons_of_mem _ hmem)
    · simp only [bumpGroup, if_neg hak] at he
      rcases List.mem_cons.1 he with rfl | hmem
      · exact hg _ (List.mem_cons_self _ _)
      · exact ih (fun e2 he2 => hg e2 (List.mem_cons_of_mem _ he2)) e hmem

theorem bumpGroup_gmax_ge (g : Groups) (k : String) (uc : UseCase) (m : Nat)
    (hg : ∀ e ∈ g, m ≤ groupMax e.2) (huc : m ≤ uc.score) :
    ∀ e ∈ bumpGroup g k uc, m ≤ groupMax e.2 := by
  induction g with
  | nil =>
    intro e he
    simp [bumpGroup] at he
    subst he
    simpa [groupMax_singleton] using huc
  | cons e0 rest ih =>
    obtain ⟨a, l⟩ := e0
    intro e he
    by_cases hak : (a == k) = true
    · simp only [bumpGroup, if_pos hak] at he
      rcases List.mem_cons.1 he with rfl | hmem
      · rw [groupMax_append_singleton]
        exact le_trans (hg (a, l) (List.mem_cons_self _ _)) (Nat.le_max_left _ _)
      · exact hg _ (List.mem_cons_of_mem _ hmem)
    · simp only [bumpGroup, if_neg hak] at he
      rcases List.mem_cons.1 he with rfl | hmem
      · exact hg _ (List.mem_cons_self _ _)
      · exact ih (fun e2 he2 => hg e2 (List.mem_cons_of_mem _ he2)) e hmem

theorem bumpGroup_pairwise_gmax (g : Groups) (k : String) (uc : UseCase)
    (hg : g.Pairwise (fun g1 g2 => groupMax g2.2 ≤ groupMax g1.2))
    (huc : ∀ e ∈ g, uc.score ≤ groupMax e.2) :
    (bumpGroup g k uc).Pairwise (fun g1 g2 => groupMax g2.2 ≤ groupMax g1.2) := by
  induction g with
  | nil => simp [bumpGroup]
  | cons e0 rest ih =>
    obtain ⟨a, l⟩ := e0
    rcases List.pairwise_cons.1 hg with ⟨hrel, hrest⟩
    by_cases hak : (a == k) = true
    · simp only [bumpGroup, if_pos hak]
      refine List.pairwise_cons.2 ⟨?_, hrest⟩
      intro e he
      rw [groupMax_append_singleton]
      exact le_trans (hrel e he) (Nat.le_max_left _ _)
    · simp only [bumpGroup, if_neg hak]
      refine List.pairwise_cons.2 ⟨?_, ?_⟩
      · exact bumpGroup_gmax_le rest k uc (groupMax l) hrel
          (huc (a, l) (List.mem_cons_self _ _))
      · exact ih hrest (fun e he => huc e (List.mem_cons_of_mem _ he))

theorem pairwise_gmax_fold (key : UseCase → String) :
    ∀ (l : List UseCase) (g : Groups),
      l.Pairwise (fun a b => b.score ≤ a.score) →
      g.Pairwise (fun g1 g2 => groupMax g2.2 ≤ groupMax g1.2) →
      (∀ uc ∈ l, ∀ e ∈ g, uc.score ≤ groupMax e.2) →
      (l.foldl (fun g uc => bumpGroup g (key uc) uc) g).Pairwise
        (fun g1 g2 => groupMax g2.2 ≤ groupMax g1.2) := by
  intro l
  induction l with
  | nil =>
    intro g _ hg _
    simpa using hg
  | cons uc rest ih =>
    intro g hl hg hcross
    rw [List.foldl_cons]
    rcases List.pairwise_cons.1 hl with ⟨hrel, hrest⟩
    refine ih _ hrest ?_ ?_
    · exact bumpGroup_pairwise_gmax g (key uc) uc hg
        (fun e he => hcross uc (List.mem_cons_self _ _) e he)
    · intro v hv e he
      exact bumpGroup_gmax_ge g (key uc) uc v.score
        (fun e2 he2 => hcross v (List.mem_cons_of_mem _ hv) e2 he2)
        (hrel v hv) e he

/-- Grouping a score-descending list yields groups whose maxima are
descending in insertion order (the email composer's implicit ordering). -/
theorem pairwise_gmax_groupByKey (key : UseCase → String) (l : List UseCase)
    (hl : l.Pairwise (fun a b => b.score ≤ a.score)) :
    (groupByKey key l).Pairwise
      (fun g1 g2 => groupMax g2.2 ≤ groupMax g1.2) := by
  exact pairwise_gmax_fold key l [] hl (by simp) (by simp)

/-! ### Nonemptiness of groups -/

theorem bumpGroup_ne_nil (g : Groups) (k : String) (uc : UseCase) :
    bumpGroup g k uc ≠ [] := by
  cases g with
  | nil => simp [bumpGroup]
  | cons e rest =>
    obtain ⟨a, l⟩ := e
    by_cases hak : (a == k) = true <;> simp [bumpGroup, hak]

theorem foldl_bumpGroup_ne_nil (key : UseCase → String) (l : List UseCase) :
    ∀ g : Groups, g ≠ [] →
      l.foldl (fun g uc => bumpGroup g (key uc) uc) g ≠ [] := by
  induction l with
  | nil => exact fun g hg => hg
  | cons uc rest ih =>
    intro g hg
    rw [List.foldl_cons]
    exact ih _ (bumpGroup_ne_nil _ _ _)

theorem groupByKey_ne_nil (key : UseCase → String) (l : List UseCase)
    (h : l ≠ []) : groupByKey key l ≠ [] := by
  cases l with
  | nil => exact absurd rfl h
  | cons uc rest =>
    rw [groupByKey, List.foldl_cons]
    exact foldl_bumpGroup_ne_nil key rest _ (bumpGroup_ne_nil _ _ _)

/-! ### Lemmas about the two roadmap composers -/

theorem emailPhaseEntry_some (ucs : List UseCase) (k : String)
    (x : String × List UseCase) (h : emailPhaseEntry ucs k = some x) :
    x.1 = k ∧ x.2 = lookupGroupD (emailGroupByPhase ucs) k ∧ x.2 ≠ [] := by
  unfold emailPhaseEntry at h
  by_cases hemp : (lookupGroupD (emailGroupByPhase ucs) k).isEmpty = true
  · rw [if_pos hemp] at h
    exact absurd h (by simp)
  · rw [if_neg hemp] at h
    have hx : (k, lookupGroupD (emailGroupByPhase ucs) k) = x :=
      Option.some.inj h
    subst hx
    refine ⟨rfl, rfl, ?_⟩
    intro hnil
    exact hemp (List.isEmpty_iff.2 hnil)

theorem emailPhaseEntry_eq_some (ucs : List UseCase) (k : String)
    (h : lookupGroupD (emailGroupByPhase ucs) k ≠ []) :
    emailPhaseEntry ucs k =
      some (k, lookupGroupD (emailGroupByPhase ucs) k) := by
  unfold emailPhaseEntry
  rw [if_neg (fun hemp => h (List.isEmpty_iff.1 hemp))]

theorem filterMap_keys_sublist {β : Type} (l : List String)
    (f : String → Option (String × β))
    (hf : ∀ k x, f k = some x → x.1 = k) :
    ((l.filterMap f).map Prod.fst).Sublist l := by
  induction l with
  | nil => simp
  | cons k l ih =>
    rw [List.filterMap_cons]
    cases hfk : f k with
    | none => exact ih.cons k
    | some x =>
      rw [List.map_cons, hf k x hfk]
      exact ih.cons₂ k

theorem mem_clientRoadmap (ucs : List UseCase) (p : String × Groups)
    (hp : p ∈ clientRoadmap ucs) :
    ∃ k, k ∈ phaseKeys ∧
      ucs.filter (fun uc => uc.engagement_category == some k) ≠ [] ∧
      p = (k, sortByDesc (fun g => groupMax g.2)
        (groupBySubCat (ucs.filter
          (fun uc => uc.engagement_category == some k)))) := by
  simp only [clientRoadmap] at hp
  rcases List.mem_map.1 hp with ⟨q, hq, rfl⟩
  rcases List.mem_filter.1 hq with ⟨hq1, hq2⟩
  rcases List.mem_map.1 hq1 with ⟨k, hk, rfl⟩
  refine ⟨k, hk, ?_, rfl⟩
  exact List.length_pos.1 (of_decide_eq_true hq2)

/-! ### The claims -/

/-- C1: for the rules {(Q1,"Yes",O1,5), (Q2,"X",O1,2), (Q2,"Y",O2,3)} and
answers {Q1:"Yes", Q2:["X","Y"]} with minScore 3 (the default), the scorer
expands the multi-select answer into its values, returns O1 with score 7 and
O2 with score 3, both retained, in the order [O1, O2], with relevance 100%
for O1 and 43% for O2. -/
theorem c1_scoring_scenario :
    scoredOfferings c1Rules c1Responses = [("O1", 7), ("O2", 3)] ∧
    relevancePct 7
      (maxScoreOf ((scoredOfferings c1Rules c1Responses).map (fun e => e.2))) =
      100 ∧
    relevancePct 3
      (maxScoreOf ((scoredOfferings c1Rules c1Responses).map (fun e => e.2))) =
      43 := by
  decide

/-- C2: `visibleQuestions` always includes a question with no visibility
condition, and includes a question with a genuine condition (cid, rv) iff
the recorded answer for cid exists and equals rv (scalar) or contains rv
(set); the Q1/Q2 scenario returns [Q1] for {Q1:"No"} and [Q1, Q2] for
{Q1:"Yes"}. -/
theorem c2_visibility_condition :
    (∀ (flat : List Question) (answers : Answers) (q : Question),
      q.condition_question_id = none ∨ q.condition_answer = none →
      (q ∈ visibleQuestions flat answers ↔ q ∈ flat)) ∧
    (∀ (flat : List Question) (answers : Answers) (q : Question)
        (cid rv : String),
      q.condition_question_id = some cid → cid ≠ "" →
      q.condition_answer = some rv → rv ≠ "" →
      (q ∈ visibleQuestions flat answers ↔
        q ∈ flat ∧ ∃ a, lookupAnswer answers cid = some a ∧
          valueMatches a rv = true)) ∧
    visibleQuestions [vq1, vq2] [("Q1", AnswerValue.scalar "No")] = [vq1] ∧
    visibleQuestions [vq1, vq2] [("Q1", AnswerValue.scalar "Yes")] =
      [vq1, vq2] := by
  refine ⟨?_, ?_, by decide, by decide⟩
  · intro flat answers q h
    have hv : isVisible answers q = true := by
      rcases h with h | h <;> simp [isVisible, jsFalsyStr, h]
    simp only [visibleQuestions]
    rw [List.mem_filter]
    simp [hv]
  · intro flat answers q cid rv hcid hcne hrv hrne
    have hfq : jsFalsyStr q.condition_question_id = false := by
      rw [hcid]
      show (cid == "") = false
      exact beq_eq_false_iff_ne.2 hcne
    have hfa : jsFalsyStr q.condition_answer = false := by
      rw [hrv]
      show (rv == "") = false
      exact beq_eq_false_iff_ne.2 hrne
    have hv : isVisible answers q =
        (match lookupAnswer answers cid with
         | none => false
         | some (.multi vs) => vs.contains rv
         | some (.scalar s) => s == rv) := by
      unfold isVisible
      rw [hfq, hfa, hcid, hrv]
      simp
    simp only [visibleQuestions]
    rw [List.mem_filter, hv]
    cases hla : lookupAnswer answers cid with
    | none => simp [hla]
    | some a =>
      cases a with
      | scalar s => simp [hla, valueMatches]
      | multi vs => simp [hla, valueMatches]

/-- C2 witness: the unconditional Q1 is included over an empty answer map,
and the conditional Q2 is included exactly when Q1's answer matches. -/
theorem c2_witness :
    (vq1 ∈ visibleQuestions [vq1] [] ↔ vq1 ∈ [vq1]) ∧
    (vq2 ∈ visibleQuestions [vq1, vq2] [("Q1", AnswerValue.scalar "Yes")] ↔
      vq2 ∈ [vq1, vq2] ∧ ∃ a,
        lookupAnswer [("Q1", AnswerValue.scalar "Yes")] "Q1" = some a ∧
        valueMatches a "Yes" = true) :=
  ⟨c2_visibility_condition.1 [vq1] [] vq1 (Or.inl rfl),
   c2_visibility_condition.2.1 [vq1, vq2]
     [("Q1", AnswerValue.scalar "Yes")] vq2 "Q1" "Yes" rfl (by decide) rfl
     (by decide)⟩

/-- C3: no offering with accumulated score below the cutoff appears in the
scorer's output, and, for every cutoff including the legacy 0, an offering
with no matching rule — no decision rule that fires against any recorded
(question, value) pair — is absent from the output entirely rather than
present with score 0. -/
theorem c3_cutoff :
    ∀ (rules : List DecisionRule) (rs : List ResponseRow) (minScore : Nat),
      (∀ e ∈ sortedEntries rules rs minScore, minScore ≤ e.2) ∧
      (∀ id : String,
        (∀ resp ∈ rs, ∀ ans ∈ answersToCheck resp.answer,
          ∀ r ∈ matchesFor rules resp.question_id ans,
            r.use_case_id ≠ id) →
        id ∉ (sortedEntries rules rs minScore).map Prod.fst) := by
  intro rules rs minScore
  constructor
  · intro e he
    simp only [sortedEntries] at he
    have h1 : e ∈ (scoreResponses rules rs).filter
        (fun e => minScore ≤ e.2) := (mem_sortByDesc _ e _).1 he
    simpa using List.of_mem_filter h1
  · intro id hno hmem
    rcases List.mem_map.1 hmem with ⟨e, he, hfst⟩
    simp only [sortedEntries] at he
    have h1 : e ∈ (scoreResponses rules rs).filter
        (fun e => minScore ≤ e.2) := (mem_sortByDesc _ e _).1 he
    have h2 : e ∈ scoreResponses rules rs := List.mem_of_mem_filter h1
    have h3 : id ∈ (scoreResponses rules rs).map Prod.fst :=
      List.mem_map.2 ⟨e, h2, hfst⟩
    rw [map_fst_scoreResponses] at h3
    rcases mem_firstEncounteredIds rules rs id h3 with
      ⟨resp, hresp, ans, hans, r, hr, hid⟩
    exact hno resp hresp ans hans r hr hid

/-- C3 witness: the retained entry (O1, 7) meets the cutoff 3, and O3 —
which has a rule, but one that no recorded answer triggers — is absent
even in the legacy minScore = 0 mode rather than kept with score 0. -/
theorem c3_witness :
    (3 : Nat) ≤ 7 ∧
      "O3" ∉ (sortedEntries c3Rules c1Responses 0).map Prod.fst :=
  ⟨(c3_cutoff c1Rules c1Responses 3).1 ("O1", 7) (by decide),
   (c3_cutoff c3Rules c1Responses 0).2 "O3" (by decide)⟩

/-- C4: the scorer's output is sorted by score descending; equal scores are
never reordered relative to the score map's entry order; and the score map's
entries stand in the order each offering was first encountered during
accumulation. -/
theorem c4_ordering_stable :
    ∀ (rules : List DecisionRule) (rs : List ResponseRow) (minScore : Nat),
      (sortedEntries rules rs minScore).Pairwise (fun a b => b.2 ≤ a.2) ∧
      (∀ s : Nat,
        (sortedEntries rules rs minScore).filter (fun e => e.2 == s) =
          ((scoreResponses rules rs).filter
            (fun e => minScore ≤ e.2)).filter (fun e => e.2 == s)) ∧
      (scoreResponses rules rs).map Prod.fst =
        firstEncounteredIds rules rs := by
  intro rules rs minScore
  exact ⟨pairwise_sortByDesc _ _, fun s => filter_sortByDesc _ _ s,
    map_fst_scoreResponses rules rs⟩

/-- C8: the score map depends only on the set of recorded response rows,
not on the order they were recorded in. -/
theorem c8_order_invariance :
    ∀ (rules : List DecisionRule) (rs1 rs2 : List ResponseRow),
      rs1.Nodup → rs2.Nodup → (∀ x, x ∈ rs1 ↔ x ∈ rs2) →
      ∀ id : String,
        lookupScore (scoreResponses rules rs1) id =
          lookupScore (scoreResponses rules rs2) id := by
  intro rules rs1 rs2 h1 h2 hext id
  have hperm : rs1.Perm rs2 := (List.perm_ext_iff_of_nodup h1 h2).2 hext
  rw [lookupScore_scoreResponses, lookupScore_scoreResponses]
  exact (hperm.map (fun resp => respContrib rules resp id)).sum_eq

/-- C8 witness: the scenario's two answers recorded in either order give
O1 the same score. -/
theorem c8_witness :
    lookupScore (scoreResponses c1Rules c1Responses) "O1" =
      lookupScore (scoreResponses c1Rules c1ResponsesRev) "O1" :=
  c8_order_invariance c1Rules c1Responses c1ResponsesRev (by decide)
    (by decide)
    (by
      intro x
      constructor
      · intro hx
        rcases List.mem_cons.1 hx with rfl | hx2
        · exact List.mem_cons_of_mem _ (List.mem_cons_self _ _)
        · rcases List.mem_cons.1 hx2 with rfl | hx3
          · exact List.mem_cons_self _ _
          · simp at hx3
      · intro hx
        rcases List.mem_cons.1 hx with rfl | hx2
        · exact List.mem_cons_of_mem _ (List.mem_cons_self _ _)
        · rcases List.mem_cons.1 hx2 with rfl | hx3
          · exact List.mem_cons_self _ _
          · simp at hx3)
    "O1"

/-- C9: appending a decision rule never decreases any offering's
accumulated score, for every answer set and offering. -/
theorem c9_monotone_add_rule :
    ∀ (rules : List DecisionRule) (r : DecisionRule) (rs : List ResponseRow)
      (id : String),
      lookupScore (scoreResponses rules rs) id ≤
        lookupScore (scoreResponses (rules ++ [r]) rs) id := by
  intro rules r rs id
  rw [lookupScore_scoreResponses, lookupScore_scoreResponses]
  apply List.sum_le_sum
  intro resp hresp
  apply List.sum_le_sum
  intro a ha
  show matchContrib rules resp.question_id a id ≤
    matchContrib (rules ++ [r]) resp.question_id a id
  unfold matchContrib
  rw [show matchesFor (rules ++ [r]) resp.question_id a =
      matchesFor rules resp.question_id a ++
        matchesFor [r] resp.question_id a
    from List.filter_append _ _]
  rw [List.map_append, List.sum_append]
  exact Nat.le_add_right _ _

/-- C10: a question whose controlling-question id is set but whose required
answer value is null or the empty string is treated as unconditional and is
always visible, whatever the answers are. -/
theorem c10_blank_required_value_visible :
    ∀ (flat : List Question) (answers : Answers) (q : Question)
      (cid : String),
      q.condition_question_id = some cid →
      q.condition_answer = none ∨ q.condition_answer = some "" →
      (q ∈ visibleQuestions flat answers ↔ q ∈ flat) := by
  intro flat answers q cid hcid h
  have hv : isVisible answers q = true := by
    unfold isVisible
    rcases h with h | h <;> simp [jsFalsyStr, h]
  simp only [visibleQuestions]
  rw [List.mem_filter]
  simp [hv]

/-- C10 witness: q10 conditions on Q1 with a blank required value and stays
visible although Q1 is answered "No". -/
theorem c10_witness :
    q10 ∈ visibleQuestions [q10] [("Q1", AnswerValue.scalar "No")] ↔
      q10 ∈ [q10] :=
  c10_blank_required_value_visible [q10] [("Q1", AnswerValue.scalar "No")]
    q10 "Q1" rfl (Or.inr rfl)

/-- C5: every offering's relevance percentage is the half-up rounding of
100 * score over the one denominator shared by the whole result set (the
maximum score clamped to at least 1), and the top entry of a non-empty
scorer output always gets exactly 100. -/
theorem c5_relevance_top :
    ∀ (rules : List DecisionRule) (rs : List ResponseRow)
      (e : String × Nat) (rest : List (String × Nat)),
      scoredOfferings rules rs = e :: rest →
      (∀ x ∈ e :: rest,
        relevancePct x.2 (maxScoreOf ((e :: rest).map (fun y => y.2))) =
          (200 * x.2 +
              Nat.max (maxScoreOf ((e :: rest).map (fun y => y.2))) 1) /
            (2 * Nat.max (maxScoreOf ((e :: rest).map (fun y => y.2))) 1)) ∧
      relevancePct e.2 (maxScoreOf ((e :: rest).map (fun y => y.2))) =
        100 := by
  intro rules rs e rest h
  refine ⟨fun x _ => rfl, ?_⟩
  have hpw : (e :: rest).Pairwise (fun a b => b.2 ≤ a.2) := by
    rw [← h]
    exact pairwise_sortByDesc _ _
  have hmem : e ∈ scoredOfferings rules rs := by
    rw [h]
    exact List.mem_cons_self _ _
  have h3 : MIN_SCORE ≤ e.2 := by
    simp only [scoredOfferings, sortedEntries] at hmem
    have h1 : e ∈ (scoreResponses rules rs).filter
        (fun x => MIN_SCORE ≤ x.2) := (mem_sortByDesc _ e _).1 hmem
    simpa using List.of_mem_filter h1
  have he1 : 1 ≤ e.2 := le_trans (by norm_num [MIN_SCORE]) h3
  have hmax : maxScoreOf ((e :: rest).map (fun y => y.2)) = e.2 := by
    rw [maxScoreOf, if_neg (by simp)]
    apply le_antisymm
    · refine foldl_max_le _ e.2 ?_ 1 he1
      intro x hx
      rcases List.mem_map.1 hx with ⟨y, hy, rfl⟩
      rcases List.mem_cons.1 hy with rfl | hy2
      · exact le_refl _
      · exact (List.pairwise_cons.1 hpw).1 y hy2
    · exact mem_le_foldl_max _ e.2
        (List.mem_map.2 ⟨e, List.mem_cons_self _ _, rfl⟩) 1
  have hm1 : e.2.max 1 = e.2 := Nat.max_eq_left he1
  rw [hmax, relevancePct, jsRoundPct, hm1,
    show 200 * e.2 + e.2 = e.2 + 2 * e.2 * 100 by ring,
    Nat.add_mul_div_left _ _ (by omega : 0 < 2 * e.2),
    Nat.div_eq_of_lt (by omega)]

/-- C5 witness: in the concrete scenario the top entry (O1, 7) gets
relevance 100. -/
theorem c5_witness :
    scoredOfferings c1Rules c1Responses = ("O1", 7) :: [("O2", 3)] ∧
    relevancePct 7
      (maxScoreOf ((("O1", 7) :: [("O2", 3)]).map (fun y => y.2))) = 100 :=
  ⟨by decide,
   (c5_relevance_top c1Rules c1Responses ("O1", 7) [("O2", 3)]
     (by decide)).2⟩

/-- C6 counterexample: the client-side roadmap drops an offering whose
phase tag is unset instead of placing it in bucket B — composing the
single unset-phase offering yields no phase group at all. -/
theorem c6_counterexample :
    ucUnset.engagement_category = none ∧ clientRoadmap [ucUnset] = [] := by
  decide

/-- C6 amended: both composers emit phase groups in the fixed order A, B, C
and omit empty phases; the email composer places unset-phase offerings in
bucket B, while the client-side composer drops unset-phase offerings from
the roadmap entirely. -/
theorem c6_amended_phase_buckets :
    ∀ ucs : List UseCase,
      ((emailRoadmap ucs).map Prod.fst).Sublist phaseKeys ∧
      (∀ uc ∈ ucs, uc.engagement_category = none →
        ∃ l, ("B", l) ∈ emailRoadmap ucs ∧ uc ∈ l) ∧
      (∀ p ∈ emailRoadmap ucs, p.2 ≠ []) ∧
      ((clientRoadmap ucs).map Prod.fst).Sublist phaseKeys ∧
      (∀ p ∈ clientRoadmap ucs, p.2 ≠ []) ∧
      (∀ uc ∈ ucs, uc.engagement_category = none →
        ∀ p ∈ clientRoadmap ucs, ∀ g ∈ p.2, uc ∉ g.2) := by
  intro ucs
  refine ⟨?_, ?_, ?_, ?_, ?_, ?_⟩
  · exact filterMap_keys_sublist phaseKeys (emailPhaseEntry ucs)
      (fun k x h => (emailPhaseEntry_some ucs k x h).1)
  · intro uc hm hnone
    have hkey : emailPhaseKey uc = "B" := by simp [emailPhaseKey, hnone]
    have hmem : uc ∈ lookupGroupD (emailGroupByPhase ucs) "B" := by
      rw [show emailGroupByPhase ucs = groupByKey emailPhaseKey ucs from rfl,
        lookupGroupD_groupByKey]
      exact List.mem_filter.2 ⟨hm, by simp [hkey]⟩
    have hne : lookupGroupD (emailGroupByPhase ucs) "B" ≠ [] := by
      intro hnil
      rw [hnil] at hmem
      simp at hmem
    refine ⟨lookupGroupD (emailGroupByPhase ucs) "B", ?_, hmem⟩
    simp only [emailRoadmap]
    exact List.mem_filterMap.2
      ⟨"B", by simp [phaseKeys], emailPhaseEntry_eq_some ucs "B" hne⟩
  · intro p hp
    simp only [emailRoadmap] at hp
    rcases List.mem_filterMap.1 hp with ⟨k, _, hpk⟩
    exact (emailPhaseEntry_some ucs k p hpk).2.2
  · have h1 : (clientRoadmap ucs).map Prod.fst =
        ((phaseKeys.map (fun k => (k, ucs.filter
            (fun uc => uc.engagement_category == some k)))).filter
          (fun p => decide (0 < p.2.length))).map Prod.fst := by
      simp only [clientRoadmap, List.map_map]
      rfl
    rw [h1]
    have h2 := (List.filter_sublist (p := fun p => decide (0 < p.2.length))
      (phaseKeys.map (fun k => (k, ucs.filter
        (fun uc => uc.engagement_category == some k))))).map Prod.fst
    simpa [List.map_map] using h2
  · intro p hp
    rcases mem_clientRoadmap ucs p hp with ⟨k, _, hne, rfl⟩
    exact sortByDesc_ne_nil _ _ (groupByKey_ne_nil _ _ hne)
  · intro uc hm hnone p hp g hg hcontra
    rcases mem_clientRoadmap ucs p hp with ⟨k, _, _, rfl⟩
    have hg2 : g ∈ groupBySubCat (ucs.filter
        (fun uc => uc.engagement_category == some k)) :=
      (mem_sortByDesc _ g _).1 hg
    obtain ⟨gk, gl⟩ := g
    have hgl := entry_groupByKey subCatKey _ gk gl hg2
    rw [hgl] at hcontra
    have huc3 := List.of_mem_filter (List.mem_of_mem_filter hcontra)
    rw [hnone] at huc3
    simp at huc3

/-- C6 amended witness: the email composer puts the unset-phase offering
into bucket B. -/
theorem c6_witness :
    ∃ l, ("B", l) ∈ emailRoadmap [ucUnset] ∧ ucUnset ∈ l :=
  (c6_amended_phase_buckets [ucUnset]).2.1 ucUnset (by decide) (by decide)

/-- C7: within a phase, offerings are partitioned by sub-category; in the
client roadmap the groups are ordered by their maximum score descending and
each group lists its offerings in the scorer's order (the sub-category
filter of the phase's offering list); the email composer's insertion-order
sub-groups are likewise max-descending whenever its input is sorted by
score descending; and the O3/O4/O5 scenario yields groups
["Data" [O3, O5], "Security" [O4]]. -/
theorem c7_subgroup_order :
    (∀ (ucs : List UseCase) (p : String × Groups), p ∈ clientRoadmap ucs →
      p.2.Pairwise (fun g1 g2 => groupMax g2.2 ≤ groupMax g1.2) ∧
      ∀ g ∈ p.2, g.2 = (ucs.filter
          (fun uc => uc.engagement_category == some p.1)).filter
        (fun uc => subCatKey uc == g.1)) ∧
    (∀ l : List UseCase, l.Pairwise (fun a b => b.score ≤ a.score) →
      (emailSubGroups l).Pairwise
        (fun g1 g2 => groupMax g2.2 ≤ groupMax g1.2)) ∧
    clientRoadmap [o3, o4, o5] =
      [("A", [("Data", [o3, o5]), ("Security", [o4])])] := by
  refine ⟨?_, ?_, by decide⟩
  · intro ucs p hp
    rcases mem_clientRoadmap ucs p hp with ⟨k, _, _, rfl⟩
    constructor
    · exact pairwise_sortByDesc _ _
    · intro g hg
      obtain ⟨gk, gl⟩ := g
      exact entry_groupByKey subCatKey _ gk gl ((mem_sortByDesc _ _ _).1 hg)
  · intro l hl
    exact pairwise_gmax_groupByKey subCatKey l hl

/-- C7 witness: the scenario's phase-A groups are ordered by descending
group maximum. -/
theorem c7_witness :
    ([("Data", [o3, o5]), ("Security", [o4])] : Groups).Pairwise
      (fun g1 g2 => groupMax g2.2 ≤ groupMax g1.2) :=
  (c7_subgroup_order.1 [o3, o4, o5]
    ("A", [("Data", [o3, o5]), ("Security", [o4])]) (by decide)).1

end SapBtp
